import Mathlib

/-!
Verification of the JSONC formatting pipeline in `json_with_comments.py`.

The four core functions are embedded over `List Char`:
`_strip_json_comments` as `strip_json_comments`, `_tokenize_json_with_comments`
as `tokenize`, `_pretty_print_tokens_with_comments` as
`pretty_print_tokens_with_comments`, and `_format_json_with_comments` as
`format_json_with_comments`.  The external JSON validator (`json.loads`) is
not part of the repository; it is passed to the formatter as an explicit
argument of type `List Char → LoadResult`, which records only what the
formatter observes: success, a `ValueError` with its message, or another
exception with its message.

Character-class predicates (`str.isspace`, the regex classes `\s` and `\d`,
`re.IGNORECASE` lowering, `str.splitlines` boundaries) are modelled on the
ASCII range that the program's inputs and the validator's diagnostic
messages use.
-/

set_option maxRecDepth 40000

namespace JsonWithComments

/-- Python `str.isspace` on the ASCII whitespace characters. -/
def pyIsSpace (c : Char) : Bool :=
  c == ' ' || c == '\t' || c == '\n' || c == '\r' || c == '\x0b' || c == '\x0c'

/-- Membership in the structural punctuation string `"{}[]:,"`. -/
def isPunctCh (c : Char) : Bool :=
  c == '{' || c == '}' || c == '[' || c == ']' || c == ':' || c == ','

/-- Characters that terminate a `//` line comment (`src[i] not in ("\n", "\r")`). -/
def notLineEnd (c : Char) : Bool :=
  !(c == '\n' || c == '\r')

/-! ## `_strip_json_comments` (lines 8-84) -/

/-- The scanner state of the stripping loop: the four mutually exclusive flag
configurations of `_strip_json_comments` (`in_string` with its delimiter and
escape flag, `in_line_comment`, `in_block_comment`, or none of them). -/
inductive StripState where
  | normal : StripState
  | inString : Char → Bool → StripState
  | lineComment : StripState
  | blockComment : StripState

/-- One-pass comment stripping, replaying the loop of `_strip_json_comments`
with the state made explicit.  In a line comment the terminating newline is
emitted; a block comment (including its `*/`) emits nothing; string content is
copied verbatim with the escape flag tracked exactly as in the source. -/
def stripAux : StripState → List Char → List Char
  | _, [] => []
  | .lineComment, c :: t =>
      if c == '\n' || c == '\r' then c :: stripAux .normal t
      else stripAux .lineComment t
  | .blockComment, '*' :: '/' :: t => stripAux .normal t
  | .blockComment, _ :: t => stripAux .blockComment t
  | .inString d esc, c :: t =>
      c :: (if esc then stripAux (.inString d false) t
            else if c == '\\' then stripAux (.inString d true) t
            else if c == d then stripAux .normal t
            else stripAux (.inString d false) t)
  | .normal, c :: t =>
      if c == '\'' || c == '"' then c :: stripAux (.inString c false) t
      else
        match c, t with
        | '/', '/' :: t2 => stripAux .lineComment t2
        | '/', '*' :: t2 => stripAux .blockComment t2
        | c, t => c :: stripAux .normal t

/-- `_strip_json_comments`. -/
def strip_json_comments (src : List Char) : List Char :=
  stripAux .normal src

/-! ## `_tokenize_json_with_comments` (lines 87-185) -/

/-- The five token kinds of `_Token.kind`. -/
inductive TokKind where
  | ws | string | comment | punct | literal
  deriving DecidableEq

/-- `_Token`: a kind together with the exact source substring. -/
structure Token where
  kind : TokKind
  value : List Char
  deriving DecidableEq

/-- The string-scanning inner loop of the tokenizer (lines 125-140): consume
characters after the opening delimiter, tracking the escape flag, up to and
including the closing delimiter; at end of input the string stays
unterminated.  Returns the consumed span and the remainder. -/
def scanString (delim : Char) : Bool → List Char → List Char × List Char
  | _, [] => ([], [])
  | esc, c :: t =>
      if esc then
        let p := scanString delim false t
        (c :: p.1, p.2)
      else if c == '\\' then
        let p := scanString delim true t
        (c :: p.1, p.2)
      else if c == delim then
        ([c], t)
      else
        let p := scanString delim false t
        (c :: p.1, p.2)

/-- The block-comment inner loop of the tokenizer (lines 152-159), applied to
the characters after the opening `/*`.  It mirrors
`while i < length - 1 and not (src[i] == "*" and src[i+1] == "/")` followed by
`if i < length - 1: i += 2`: with a single character left the scan stops in
front of it, so an unterminated comment's token excludes the final input
character. -/
def blockScan : List Char → List Char × List Char
  | [] => ([], [])
  | [c] => ([], [c])
  | a :: b :: t =>
      if a = '*' ∧ b = '/' then (['*', '/'], t)
      else
        let p := blockScan (b :: t)
        (a :: p.1, p.2)

/-- The literal inner loop of the tokenizer (lines 168-183), applied to the
characters after the first literal character: accumulate greedily until
whitespace, structural punctuation, a comment start, or a quote. -/
def literalScan : List Char → List Char × List Char
  | [] => ([], [])
  | c :: t =>
      if pyIsSpace c then ([], c :: t)
      else if isPunctCh c then ([], c :: t)
      else if c == '/' && (t.head? == some '/' || t.head? == some '*') then ([], c :: t)
      else if c == '\'' || c == '"' then ([], c :: t)
      else
        let p := literalScan t
        (c :: p.1, p.2)

/-- One iteration of the tokenizer's outer loop: classify the next span and
return the produced token and the unconsumed remainder (`none` on empty
input).  The branch order matches the source: whitespace, string, `//`
comment, `/*` comment, punctuation, literal. -/
def nextToken : List Char → Option (Token × List Char)
  | [] => none
  | c :: t =>
      if pyIsSpace c then
        some (⟨.ws, c :: t.takeWhile pyIsSpace⟩, t.dropWhile pyIsSpace)
      else if c == '\'' || c == '"' then
        some (⟨.string, c :: (scanString c false t).1⟩, (scanString c false t).2)
      else
        match c, t with
        | '/', '/' :: t2 =>
            some (⟨.comment, '/' :: '/' :: t2.takeWhile notLineEnd⟩, t2.dropWhile notLineEnd)
        | '/', '*' :: t2 =>
            some (⟨.comment, '/' :: '*' :: (blockScan t2).1⟩, (blockScan t2).2)
        | c, t =>
            if isPunctCh c then some (⟨.punct, [c]⟩, t)
            else some (⟨.literal, c :: (literalScan t).1⟩, (literalScan t).2)

/-- Fuel-indexed iteration of `nextToken`; with fuel at least the input
length it runs the tokenizer loop to completion. -/
def tokenizeF : Nat → List Char → List Token
  | 0, _ => []
  | fuel + 1, l =>
      match nextToken l with
      | none => []
      | some (tok, rest) => tok :: tokenizeF fuel rest

/-- `_tokenize_json_with_comments`: every loop iteration consumes at least one
character, so the input length is enough fuel. -/
def tokenize (src : List Char) : List Token :=
  tokenizeF src.length src

/-- Concatenation of the token texts, in order. -/
def concatToks (ts : List Token) : List Char :=
  ts.foldr (fun t acc => t.value ++ acc) []

/-! ## `_pretty_print_tokens_with_comments` (lines 188-342)

The Python code keeps a list `pieces` of emitted fragments and re-scans it
from the end; every helper (`last_non_space_char`, `at_line_start`,
`strip_trailing_whitespace`) depends only on the concatenation of `pieces`,
so the state is embedded as the flat output buffer plus the indent level. -/

/-- Printer state: the output buffer written so far and the indent level. -/
structure PState where
  buf : List Char
  indent : Nat
  deriving DecidableEq

/-- `indent_step = 4`. -/
def indent_step : Nat := 4

/-- `write_newline_and_indent`: a newline followed by the current indent. -/
def newline_and_indent (ind : Nat) : List Char :=
  '\n' :: List.replicate (ind * indent_step) ' '

/-- `last_non_space_char`: the last character of the buffer that is not
whitespace; `none` models the empty-string result of the Python helper. -/
def last_non_space_char (buf : List Char) : Option Char :=
  buf.reverse.find? (fun c => !pyIsSpace c)

/-- Scan of the reversed buffer for `at_line_start`: a newline before any
non-space means line start; a non-space first means not; an all-space
non-empty buffer means not (`saw_any` is true and no newline was found). -/
def at_line_start_aux : List Char → Bool
  | [] => false
  | c :: t => if c == '\n' then true else if !pyIsSpace c then false else at_line_start_aux t

/-- `at_line_start`: the empty buffer counts as line start. -/
def at_line_start (buf : List Char) : Bool :=
  if buf.isEmpty then true else at_line_start_aux buf.reverse

/-- Python `str.rstrip()` (also the net effect of
`strip_trailing_whitespace` on the concatenated buffer). -/
def pyRstrip (l : List Char) : List Char :=
  (l.reverse.dropWhile pyIsSpace).reverse

/-- Python `str.lstrip()`. -/
def pyLstrip (l : List Char) : List Char :=
  l.dropWhile pyIsSpace

/-- Python `str.strip()`. -/
def pyStrip (l : List Char) : List Char :=
  pyRstrip (pyLstrip l)

/-- Line-boundary characters of Python `str.splitlines`. -/
def isLineBoundary (c : Char) : Bool :=
  c == '\n' || c == '\r' || c == '\x0b' || c == '\x0c' || c == '\x1c' ||
  c == '\x1d' || c == '\x1e' || c == '\x85' || c == '\u2028' || c == '\u2029'

/-- Worker for `splitlines(True)`; `cur` is the current line accumulated in
reverse. -/
def splitlinesGo (cur : List Char) : List Char → List (List Char)
  | [] => if cur.isEmpty then [] else [cur.reverse]
  | '\r' :: '\n' :: t => (cur.reverse ++ ['\r', '\n']) :: splitlinesGo [] t
  | c :: t =>
      if isLineBoundary c then (cur.reverse ++ [c]) :: splitlinesGo [] t
      else splitlinesGo (c :: cur) t

/-- Python `str.splitlines(True)` (keepends). -/
def pySplitlines (l : List Char) : List (List Char) :=
  splitlinesGo [] l

/-- Python `s.endswith(("\n", "\r"))`. -/
def endsWithNlOrCr (l : List Char) : Bool :=
  match l.getLast? with
  | some c => c == '\n' || c == '\r'
  | none => false

/-- `lines and lines[-1].endswith(("\n", "\r"))` for the comment lines. -/
def commentEndsOk (lines : List (List Char)) : Bool :=
  match lines.getLast? with
  | some last => endsWithNlOrCr last
  | none => false

/-- The per-line emission of a multi-line comment: the first line verbatim,
every later line prefixed with the current indent. -/
def commentLinesOut (ind : Nat) : List (List Char) → List Char
  | [] => []
  | l0 :: rest =>
      l0 ++ rest.foldr (fun l acc => List.replicate (ind * indent_step) ' ' ++ l ++ acc) []

/-- The `kind == "comment"` branch of the printer (lines 263-295): a simple
trailing `//` comment is pulled up onto the previous content line (trailing
whitespace stripped, one space, trimmed comment, newline + indent); any other
comment is emitted on its own line(s), with continuation lines re-indented and
a final newline ensured. -/
def handle_comment (st : PState) (val : List Char) : PState :=
  let prev := last_non_space_char st.buf
  let isLine := (pyLstrip val).take 2 == ['/', '/']
  let hasNl := val.contains '\n' || val.contains '\r'
  if isLine && !hasNl && !(prev == none || prev == some '\n') then
    { buf := pyRstrip st.buf ++ ' ' :: pyStrip val ++ newline_and_indent st.indent,
      indent := st.indent }
  else
    let b0 := if st.buf.isEmpty || !(prev == some '\n') then
                st.buf ++ newline_and_indent st.indent
              else st.buf
    let lines := pySplitlines val
    let b1 := b0 ++ commentLinesOut st.indent lines
    { buf := if commentEndsOk lines then b1 else b1 ++ ['\n'], indent := st.indent }

/-- The `kind == "punct"` branch of the printer (lines 297-322).  The
closing-bracket test `prev in "{["` is Python substring membership, which is
also true for the empty string, hence the `prev == none` disjunct. -/
def handle_punct (st : PState) (c : Char) : PState :=
  if c == '{' || c == '[' then
    let prev := last_non_space_char st.buf
    let b0 := if prev == some ':' then st.buf ++ [' '] else st.buf
    let ind := st.indent + 1
    { buf := b0 ++ c :: newline_and_indent ind, indent := ind }
  else if c == '}' || c == ']' then
    let ind := st.indent - 1
    let prev := last_non_space_char st.buf
    if prev == none || prev == some '{' || prev == some '[' then
      { buf := st.buf ++ [c], indent := ind }
    else
      { buf := st.buf ++ newline_and_indent ind ++ [c], indent := ind }
  else if c == ',' then
    { buf := st.buf ++ ',' :: newline_and_indent st.indent, indent := st.indent }
  else if c == ':' then
    { buf := st.buf ++ [':', ' '], indent := st.indent }
  else st

/-- The `kind in ("string", "literal")` branch of the printer (lines
325-332): when not at a line start and the previous non-space character is
not one of `{ [ : ,`, a separating space is inserted; then the token text is
emitted verbatim. -/
def handle_value (st : PState) (val : List Char) : PState :=
  let b0 :=
    if !at_line_start st.buf then
      match last_non_space_char st.buf with
      | some p =>
          if !(p == '{' || p == '[' || p == ':' || p == ',') then st.buf ++ [' ']
          else st.buf
      | none => st.buf
    else st.buf
  { buf := b0 ++ val, indent := st.indent }

/-- One iteration of the printer's token loop.  Whitespace tokens are
skipped.  Punctuation tokens produced by the tokenizer are always a single
character; the impossible shapes fall through to the unchanged state. -/
def pretty_step (st : PState) (tok : Token) : PState :=
  match tok.kind with
  | .ws => st
  | .comment => handle_comment st tok.value
  | .punct =>
      match tok.value with
      | [c] => handle_punct st c
      | _ => st
  | .string => handle_value st tok.value
  | .literal => handle_value st tok.value

/-- `_pretty_print_tokens_with_comments`: fold the token loop, strip trailing
whitespace from the assembled buffer, and append one newline iff
`newline_at_end`. -/
def pretty_print_tokens_with_comments (tokens : List Token) (newline_at_end : Bool) :
    List Char :=
  let st := tokens.foldl pretty_step { buf := [], indent := 0 }
  let r := pyRstrip st.buf
  if newline_at_end then r ++ ['\n'] else r

/-! ## `_format_json_with_comments` (lines 357-407) -/

/-- What the formatter observes of `json.loads(cleaned)`: success, a
`ValueError` carrying its message, or any other exception carrying its
message. -/
inductive LoadResult where
  | ok : LoadResult
  | valueError : List Char → LoadResult
  | otherError : List Char → LoadResult
  deriving DecidableEq

/-- ASCII lowering used to model `re.IGNORECASE`. -/
def toLowerCh (c : Char) : Char :=
  if 'A' ≤ c ∧ c ≤ 'Z' then Char.ofNat (c.toNat + 32) else c

/-- The regex class `\d` on ASCII digits. -/
def isDigitCh (c : Char) : Bool :=
  decide ('0' ≤ c ∧ c ≤ '9')

/-- Python `int` of a digit string. -/
def digitsToNat (l : List Char) : Nat :=
  l.foldl (fun n c => n * 10 + (c.toNat - '0'.toNat)) 0

/-- Case-insensitive literal match; returns the remainder after the pattern. -/
def matchCI : List Char → List Char → Option (List Char)
  | [], l => some l
  | _ :: _, [] => none
  | p :: ps, c :: t => if toLowerCh c == toLowerCh p then matchCI ps t else none

/-- Greedy `\s+`: at least one whitespace character, maximal munch.  In both
patterns of the source the class following `\s+` is disjoint from
whitespace, so maximal munch agrees with the regex engine. -/
def matchSpaces1 (l : List Char) : Option (List Char) :=
  if (l.takeWhile pyIsSpace).isEmpty then none else some (l.dropWhile pyIsSpace)

/-- Greedy `(\d+)`: at least one digit, maximal munch, returning its value. -/
def matchDigits1 (l : List Char) : Option (Nat × List Char) :=
  let ds := l.takeWhile isDigitCh
  if ds.isEmpty then none else some (digitsToNat ds, l.dropWhile isDigitCh)

/-- Match of `line\s+(\d+)\s+column\s+(\d+)` (IGNORECASE) anchored at the
start of `l`. -/
def lineColAt (l : List Char) : Option (Nat × Nat) := do
  let r1 ← matchCI ['l', 'i', 'n', 'e'] l
  let r2 ← matchSpaces1 r1
  let (n, r3) ← matchDigits1 r2
  let r4 ← matchSpaces1 r3
  let r5 ← matchCI ['c', 'o', 'l', 'u', 'm', 'n'] r4
  let r6 ← matchSpaces1 r5
  let (m, _) ← matchDigits1 r6
  pure (n, m)

/-- Match of `\(char\s+(\d+)\)` (IGNORECASE) anchored at the start of `l`. -/
def charPosAt (l : List Char) : Option Nat := do
  let r1 ← matchCI ['(', 'c', 'h', 'a', 'r'] l
  let r2 ← matchSpaces1 r1
  let (k, r3) ← matchDigits1 r2
  match r3 with
  | ')' :: _ => pure k
  | _ => none

/-- `re.search`: the match at the leftmost position where the anchored
matcher succeeds.  Neither source pattern matches the empty string, so the
end-of-string position need not be tried. -/
def searchFirst {α : Type} (f : List Char → Option α) : List Char → Option α
  | [] => none
  | c :: t =>
      match f (c :: t) with
      | some r => some r
      | none => searchFirst f t

/-- First occurrence of `line\s+(\d+)\s+column\s+(\d+)` in a message. -/
def re_search_line_col (msg : List Char) : Option (Nat × Nat) :=
  searchFirst lineColAt msg

/-- First occurrence of `\(char\s+(\d+)\)` in a message. -/
def re_search_char_pos (msg : List Char) : Option Nat :=
  searchFirst charPosAt msg

/-- The `error_info` dict built in `_format_json_with_comments`. -/
structure ErrorInfo where
  message : List Char
  lineno : Option Nat
  colno : Option Nat
  pos : Option Nat
  deriving DecidableEq

/-- The `ValueError` handler (lines 369-393): start from all-`None` position
fields, fill `lineno`/`colno` from the first `line N column M` occurrence,
and `pos` from the first `(char K)` occurrence. -/
def value_error_info (msg : List Char) : ErrorInfo :=
  match re_search_line_col msg with
  | some p => { message := msg, lineno := some p.1, colno := some p.2,
                pos := re_search_char_pos msg }
  | none => { message := msg, lineno := none, colno := none,
              pos := re_search_char_pos msg }

/-- `_format_json_with_comments`, with `json.loads` supplied as `loads`:
strip comments, validate; on success re-print the token stream of the raw
text with `newline_at_end = raw.endswith("\n")`; on a `ValueError` return the
raw text with the pattern-extracted error info; on any other exception return
the raw text with an all-`None`-position error info. -/
def format_json_with_comments (loads : List Char → LoadResult) (raw : List Char) :
    List Char × Option ErrorInfo :=
  match loads (strip_json_comments raw) with
  | .ok =>
      (pretty_print_tokens_with_comments (tokenize raw) (raw.getLast? == some '\n'), none)
  | .valueError msg => (raw, some (value_error_info msg))
  | .otherError msg =>
      (raw, some { message := msg, lineno := none, colno := none, pos := none })

/-! ## Auxiliary notions used by the claims -/

/-- Run of the tokenizer's string-scanning automaton over a candidate string
body, starting from escape state `esc`: `true` iff the scan never meets an
unescaped delimiter inside the body and ends with the escape flag off (so a
delimiter appended right after the body closes the string there). -/
def scanOkAux (delim : Char) : Bool → List Char → Bool
  | esc, [] => !esc
  | esc, c :: t =>
      if esc then scanOkAux delim false t
      else if c == '\\' then scanOkAux delim true t
      else if c == delim then false
      else scanOkAux delim false t

/-- A well-formed string body for delimiter `delim`: no unescaped delimiter,
and no trailing half escape. -/
def scanOk (delim : Char) (body : List Char) : Bool :=
  scanOkAux delim false body

/-- Trailing-whitespace run of a text (empty iff the text has no trailing
whitespace), read from the end. -/
def trailing_ws (l : List Char) : List Char :=
  l.reverse.takeWhile pyIsSpace

/-- A text ends with a line break, where line terminators are `\n` or `\r`
(the reading used by the trailing-newline claim). -/
def endsWithLineBreak (l : List Char) : Bool :=
  match l.getLast? with
  | some c => c == '\n' || c == '\r'
  | none => false

/-- Modelled from the spec: the claim's reading of the offset pattern
`char <K>` — the word `char` followed by whitespace and digits, without the
surrounding parentheses that the source regex `\(char\s+(\d+)\)` demands. -/
def charPatternAt (l : List Char) : Option Nat := do
  let r1 ← matchCI ['c', 'h', 'a', 'r'] l
  let r2 ← matchSpaces1 r1
  let (k, _) ← matchDigits1 r2
  pure k

/-- A validator verdict that accepts everything: stands in for `json.loads`
on inputs whose comment-stripped text is known to parse. -/
def acceptAll : List Char → LoadResult := fun _ => LoadResult.ok

/-! ## Concrete texts used in the claim theorems -/

/-- The input `{}` of the compact-empty-object claim. -/
def emptyObjIn : List Char := "\x7b\x7d".toList

/-- What the formatter actually produces for `{}`: an opening brace, a
newline, four spaces of indent, and the closing brace. -/
def emptyObjOut : List Char := "\x7b\n    \x7d".toList

/-- An unterminated block comment followed by two content characters. -/
def c4In : List Char := "/*ab".toList

/-- The comment token the tokenizer actually produces for `c4In`. -/
def c4CommentVal : List Char := "/*a".toList

/-- The stray literal token the tokenizer produces after it. -/
def c4LitVal : List Char := "b".toList

/-- A terminated block comment. -/
def c4Term : List Char := "/*a*/".toList

/-- A minus sign, a block comment, and the digit of the number `-1`. -/
def c5In : List Char := "-/*c*/1".toList

/-- `strip_json_comments c5In`: the valid JSON number `-1`. -/
def c5StrippedIn : List Char := "-1".toList

/-- What the formatter produces for `c5In`. -/
def c5Out : List Char := "-\n/*c*/\n1".toList

/-- `strip_json_comments c5Out`: the minus sign is separated from its digit. -/
def c5StrippedOut : List Char := "-\n\n1".toList

/-- An array holding a two-line block comment and the number 1. -/
def c6In : List Char := "[/* a\nb */1]".toList

/-- First formatter pass over `c6In`. -/
def c6Out1 : List Char := "[\n    \n    /* a\n    b */\n1\n]".toList

/-- Second formatter pass: the comment's continuation line gains four more
spaces, because the first pass's indentation became part of the comment
token. -/
def c6Out2 : List Char := "[\n    \n    /* a\n        b */\n1\n]".toList

/-- A valid JSON number followed by a bare carriage return. -/
def c7CrIn : List Char := "1\r".toList

/-- A valid JSON number followed by a newline. -/
def c7NlIn : List Char := "1\n".toList

/-- A diagnostic message containing `char 7` without parentheses. -/
def c9Msg : List Char := "char 7".toList

/-- A diagnostic message in the shape produced by `json.loads`. -/
def c10Msg : List Char := "Expecting value: line 1 column 6 (char 5)".toList

/-- A short invalid input used to exercise the error branches. -/
def c3In : List Char := "nope".toList

/-- A short exception message. -/
def c3Msg : List Char := "boom".toList

/-- A validator that raises a `ValueError` with message `c3Msg`. -/
def c3Loads : List Char → LoadResult := fun _ => LoadResult.valueError c3Msg

/-- A validator that raises a `ValueError` with the realistic `json.loads`
message `c10Msg`. -/
def c10Loads : List Char → LoadResult := fun _ => LoadResult.valueError c10Msg

/-- A validator that raises a non-`ValueError` exception with message
`c3Msg`. -/
def c10OtherLoads : List Char → LoadResult := fun _ => LoadResult.otherError c3Msg

/-- The string delimiter of the string-opacity witness. -/
def c8Delim : Char := '"'

/-- A string body containing every structural character and both
comment-start sequences. -/
def c8Body : List Char := "a\x7b\x7d[]:,//x/*y".toList

/-- Text following the closing delimiter in the string-opacity witness. -/
def c8Rest : List Char := " 1".toList

/-! ## Scanner lemmas -/

/-- The string scan splits its input: consumed span plus remainder. -/
theorem scanString_append (d : Char) :
    ∀ (esc : Bool) (l : List Char),
      (scanString d esc l).1 ++ (scanString d esc l).2 = l := by
  intro esc l
  induction l generalizing esc with
  | nil => simp [scanString]
  | cons c t ih =>
    simp only [scanString]
    split_ifs <;> simp [ih]

/-- The block-comment scan splits its input: consumed span plus remainder. -/
theorem blockScan_append :
    ∀ l : List Char, (blockScan l).1 ++ (blockScan l).2 = l := by
  intro l
  induction l with
  | nil => rfl
  | cons a l ih =>
    cases l with
    | nil => rfl
    | cons b t =>
      simp only [blockScan]
      split_ifs <;> simp_all

/-- The literal scan splits its input: consumed span plus remainder. -/
theorem literalScan_append :
    ∀ l : List Char, (literalScan l).1 ++ (literalScan l).2 = l := by
  intro l
  induction l with
  | nil => rfl
  | cons c t ih =>
    simp only [literalScan]
    split_ifs <;> simp [ih]

/-- Each tokenizer step emits a token whose text is exactly the consumed
span, and consumes at least one character. -/
theorem nextToken_spec :
    ∀ (l rest : List Char) (tok : Token), nextToken l = some (tok, rest) →
      tok.value ++ rest = l ∧ rest.length < l.length := by
  intro l rest tok h
  cases l with
  | nil => simp [nextToken] at h
  | cons c t =>
    simp only [nextToken] at h
    split_ifs at h with h1 h2
    · simp only [Option.some.injEq, Prod.mk.injEq] at h
      obtain ⟨rfl, rfl⟩ := h
      have hlen := congrArg List.length (List.takeWhile_append_dropWhile (p := pyIsSpace) (l := t))
      simp only [List.length_append] at hlen
      constructor
      · simp [List.takeWhile_append_dropWhile]
      · simp only [List.length_cons]
        omega
    · simp only [Option.some.injEq, Prod.mk.injEq] at h
      obtain ⟨rfl, rfl⟩ := h
      have hsp := scanString_append c false t
      have hlen := congrArg List.length hsp
      simp only [List.length_append] at hlen
      constructor
      · simp [hsp]
      · simp only [List.length_cons]
        omega
    · split at h
      · simp only [Option.some.injEq, Prod.mk.injEq] at h
        obtain ⟨rfl, rfl⟩ := h
        rename_i t2
        have hlen := congrArg List.length
          (List.takeWhile_append_dropWhile (p := notLineEnd) (l := t2))
        simp only [List.length_append] at hlen
        constructor
        · simp [List.takeWhile_append_dropWhile]
        · simp only [List.length_cons]
          omega
      · simp only [Option.some.injEq, Prod.mk.injEq] at h
        obtain ⟨rfl, rfl⟩ := h
        rename_i t2
        have hsp := blockScan_append t2
        have hlen := congrArg List.length hsp
        simp only [List.length_append] at hlen
        constructor
        · simp [hsp]
        · simp only [List.length_cons]
          omega
      · split_ifs at h with h3
        · simp only [Option.some.injEq, Prod.mk.injEq] at h
          obtain ⟨rfl, rfl⟩ := h
          simp
        · simp only [Option.some.injEq, Prod.mk.injEq] at h
          obtain ⟨rfl, rfl⟩ := h
          have hsp := literalScan_append t
          have hlen := congrArg List.length hsp
          simp only [List.length_append] at hlen
          constructor
          · simp [hsp]
          · simp only [List.length_cons]
            omega

/-- The tokenizer step never fails on a non-empty input. -/
theorem nextToken_cons_isSome (c : Char) (t : List Char) :
    (nextToken (c :: t)).isSome = true := by
  simp only [nextToken]
  split_ifs <;> first
  | simp
  | (split <;> first
     | simp
     | (split_ifs <;> simp))

/-- The tokenizer step fails only on the empty input. -/
theorem nextToken_eq_none (l : List Char) (h : nextToken l = none) : l = [] := by
  cases l with
  | nil => rfl
  | cons c t =>
    have := nextToken_cons_isSome c t
    rw [h] at this
    simp at this

/-- With enough fuel, the produced tokens concatenate back to the input. -/
theorem tokenizeF_concat :
    ∀ (fuel : Nat) (l : List Char), l.length ≤ fuel →
      concatToks (tokenizeF fuel l) = l := by
  intro fuel
  induction fuel with
  | zero =>
    intro l h
    have hl : l = [] := List.length_eq_zero.mp (Nat.le_zero.mp h)
    subst hl
    rfl
  | succ f ih =>
    intro l h
    rcases heq : nextToken l with _ | ⟨tok, rest⟩
    · have hl : l = [] := nextToken_eq_none l heq
      subst hl
      rfl
    · have hs := nextToken_spec l rest tok heq
      have hr : rest.length ≤ f := by omega
      simp only [tokenizeF, heq]
      simp only [concatToks, List.foldr_cons] at *
      rw [ih rest hr]
      exact hs.1

/-- The tokenizer of the empty input produces no tokens, whatever the fuel. -/
theorem tokenizeF_nil : ∀ f : Nat, tokenizeF f [] = [] := by
  intro f
  cases f <;> simp [tokenizeF, nextToken]

/-- Any two sufficient fuel amounts run the tokenizer loop identically. -/
theorem tokenizeF_irrel :
    ∀ (f1 f2 : Nat) (l : List Char), l.length ≤ f1 → l.length ≤ f2 →
      tokenizeF f1 l = tokenizeF f2 l := by
  intro f1
  induction f1 with
  | zero =>
    intro f2 l h1 h2
    have hl : l = [] := List.length_eq_zero.mp (Nat.le_zero.mp h1)
    subst hl
    simp [tokenizeF_nil]
  | succ f ih =>
    intro f2 l h1 h2
    cases l with
    | nil => simp [tokenizeF_nil]
    | cons c t =>
      simp only [List.length_cons] at h1 h2
      obtain ⟨g, rfl⟩ : ∃ g, f2 = g + 1 := ⟨f2 - 1, by omega⟩
      rcases heq : nextToken (c :: t) with _ | ⟨tok, rest⟩
      · have := nextToken_cons_isSome c t
        rw [heq] at this
        simp at this
      · have hs := nextToken_spec (c :: t) rest tok heq
        simp only [List.length_cons] at hs
        simp only [tokenizeF, heq]
        rw [ih g rest (by omega) (by omega)]

/-- One unfolding of the tokenizer loop when the step is known. -/
theorem tokenizeF_cons_eq (f : Nat) (l rest : List Char) (tok : Token)
    (h : nextToken l = some (tok, rest)) :
    tokenizeF (f + 1) l = tok :: tokenizeF f rest := by
  simp only [tokenizeF, h]

/-- A body accepted by `scanOkAux` makes the tokenizer's string scan close
exactly at the delimiter that follows it. -/
theorem scanString_closes (d : Char) (hd : (d == '\\') = false) :
    ∀ (body : List Char) (esc : Bool) (rest : List Char),
      scanOkAux d esc body = true →
      scanString d esc (body ++ d :: rest) = (body ++ [d], rest) := by
  intro body
  induction body with
  | nil =>
    intro esc rest h
    simp only [scanOkAux, Bool.not_eq_true'] at h
    subst h
    simp [scanString, hd]
  | cons c t ih =>
    intro esc rest h
    cases esc with
    | true =>
      simp only [scanOkAux, if_pos] at h
      simp only [List.cons_append, scanString, if_pos, List.append_eq]
      rw [ih false rest h]
    | false =>
      simp only [scanOkAux] at h
      by_cases hb : (c == '\\') = true
      · simp only [hb, if_true, if_false, Bool.false_eq_true] at h
        simp only [List.cons_append, scanString, hb, if_true, if_false, Bool.false_eq_true,
          List.append_eq]
        rw [ih true rest h]
      · by_cases hc : (c == d) = true
        · simp [hb, hc] at h
        · simp only [hb, hc, if_false, Bool.false_eq_true] at h
          simp only [List.cons_append, scanString, hb, hc, if_false, Bool.false_eq_true,
            List.append_eq]
          rw [ih false rest h]

/-- A body accepted by `scanOkAux` makes the stripper's string state copy the
body and the closing delimiter verbatim and return to the normal state. -/
theorem stripAux_inString_closes (d : Char) (hd : (d == '\\') = false) :
    ∀ (body : List Char) (esc : Bool) (rest : List Char),
      scanOkAux d esc body = true →
      stripAux (.inString d esc) (body ++ d :: rest) =
        body ++ d :: stripAux .normal rest := by
  intro body
  induction body with
  | nil =>
    intro esc rest h
    simp only [scanOkAux, Bool.not_eq_true'] at h
    subst h
    simp [stripAux, hd]
  | cons c t ih =>
    intro esc rest h
    cases esc with
    | true =>
      simp only [scanOkAux, if_pos] at h
      simp only [List.cons_append, stripAux, if_pos, List.append_eq]
      rw [ih false rest h]
    | false =>
      simp only [scanOkAux] at h
      by_cases hb : (c == '\\') = true
      · simp only [hb, if_true, if_false, Bool.false_eq_true] at h
        simp only [List.cons_append, stripAux, hb, if_true, if_false, Bool.false_eq_true,
          List.append_eq]
        rw [ih true rest h]
      · by_cases hc : (c == d) = true
        · simp [hb, hc] at h
        · simp only [hb, hc, if_false, Bool.false_eq_true] at h
          simp only [List.cons_append, stripAux, hb, hc, if_false, Bool.false_eq_true,
            List.append_eq]
          rw [ih false rest h]

/-- After dropping a maximal run satisfying `p`, nothing satisfying `p` is
left at the front. -/
theorem takeWhile_after_dropWhile (p : Char → Bool) :
    ∀ l : List Char, (l.dropWhile p).takeWhile p = [] := by
  intro l
  induction l with
  | nil => rfl
  | cons c t ih =>
    by_cases h : p c = true
    · simp [List.dropWhile_cons, h, ih]
    · simp [List.dropWhile_cons, h, List.takeWhile_cons]

/-- A right-stripped text has no trailing whitespace. -/
theorem trailing_ws_pyRstrip (l : List Char) : trailing_ws (pyRstrip l) = [] := by
  simp [trailing_ws, pyRstrip, List.reverse_reverse, takeWhile_after_dropWhile]

/-- A right-stripped text with a newline appended has exactly that newline as
its trailing whitespace. -/
theorem trailing_ws_pyRstrip_nl (l : List Char) :
    trailing_ws (pyRstrip l ++ ['\n']) = ['\n'] := by
  simp only [trailing_ws, pyRstrip, List.reverse_append, List.reverse_reverse,
    List.reverse_cons, List.reverse_nil, List.nil_append, List.cons_append]
  rw [List.takeWhile_cons_of_pos (by rfl)]
  simp [takeWhile_after_dropWhile]

/-- The leftmost-search result exists exactly when the anchored matcher
succeeds at some position, provided the matcher rejects the empty suffix. -/
theorem searchFirst_isSome_iff {α : Type} (f : List Char → Option α)
    (hf : f [] = none) :
    ∀ l : List Char, (searchFirst f l).isSome = true ↔
      ∃ i, (f (l.drop i)).isSome = true := by
  intro l
  induction l with
  | nil =>
    simp [searchFirst, hf]
  | cons c t ih =>
    simp only [searchFirst]
    rcases hfc : f (c :: t) with _ | r
    · simp only
      rw [ih]
      constructor
      · rintro ⟨i, hi⟩
        exact ⟨i + 1, by simpa using hi⟩
      · rintro ⟨i, hi⟩
        cases i with
        | zero => simp [hfc] at hi
        | succ j => exact ⟨j, by simpa using hi⟩
    · simp only [Option.isSome_some, true_iff]
      exact ⟨0, by simp [hfc]⟩

/-! ## Claim theorems -/

/-- C2: for every input string, concatenating the text of all tokens
produced by the tokenizer, in order, yields exactly the input string —
including for inputs with unterminated strings or block comments. -/
theorem tokenize_lossless (l : List Char) : concatToks (tokenize l) = l :=
  tokenizeF_concat l.length l (Nat.le_refl _)

/-- C1 (code bug): for the input `{}` the formatter succeeds but returns
`{`, newline, four spaces, `}` — the compact-empty-object branch emits the
closing brace directly, yet the newline and indent emitted right after the
opening brace remain, so the output is not the compact `{}` the spec and the
source comment (line 310) describe. -/
theorem format_empty_object_bug :
    format_json_with_comments acceptAll emptyObjIn = (emptyObjOut, none) ∧
    ¬ emptyObjOut = emptyObjIn := by decide

/-- C4 (code bug): a terminated `/*…*/` run is one comment token, but for an
unterminated block comment the scan stops one character short of the end of
input (`while i < length - 1`), so `/*ab` yields the comment token `/*a`
followed by a separate literal token `b` instead of a single comment token
covering everything from `/*` to the end. -/
theorem tokenize_unterminated_block_bug :
    tokenize c4In = [Token.mk TokKind.comment c4CommentVal,
                     Token.mk TokKind.literal c4LitVal] ∧
    tokenize c4Term = [Token.mk TokKind.comment c4Term] := by decide

/-- C5 (code bug): the input `c5In` (a minus sign, a block comment, then the
digit 1) strips to the valid JSON `-1`, but the formatter moves the comment
onto its own line, producing the minus sign, a newline, the comment, a
newline, and the digit; stripping that output leaves the minus sign and the
digit on separate lines, which is no longer the same JSON value (it fails to
parse), so stripping the formatted output and stripping the input do not
parse to equal values. -/
theorem format_semantic_round_trip_bug :
    strip_json_comments c5In = c5StrippedIn ∧
    (format_json_with_comments acceptAll c5In).1 = c5Out ∧
    strip_json_comments c5Out = c5StrippedOut ∧
    ¬ c5StrippedOut = c5StrippedIn := by decide

/-- C6 (code bug): formatting is not idempotent.  For the valid input
`[/* a … b */1]` the first pass indents the comment's second line by four
spaces; that indentation becomes part of the comment token, so a second pass
indents it again and produces a different text. -/
theorem format_not_idempotent :
    (format_json_with_comments acceptAll c6In).1 = c6Out1 ∧
    (format_json_with_comments acceptAll c6Out1).1 = c6Out2 ∧
    ¬ c6Out2 = c6Out1 := by decide

/-- C3: whenever the returned error is present the returned text equals the
input, and the error is present exactly when validation of the
comment-stripped text fails. -/
theorem format_error_returns_input (v : List Char → LoadResult) (raw : List Char) :
    ((format_json_with_comments v raw).2.isSome = true →
      (format_json_with_comments v raw).1 = raw) ∧
    ((format_json_with_comments v raw).2.isSome = true ↔
      ¬ v (strip_json_comments raw) = LoadResult.ok) := by
  rcases h : v (strip_json_comments raw) with _ | m | m <;>
    simp [format_json_with_comments, h]

/-- Witness for C3 at a concrete failing validator and input. -/
theorem format_error_returns_input_witness :
    (format_json_with_comments c3Loads c3In).1 = c3In :=
  (format_error_returns_input c3Loads c3In).1 (by decide)

/-- C10: the formatter is total over the validator's outcomes and never
propagates an exception: a `ValueError` yields the raw input together with
the pattern-extracted error info, and any other exception yields the raw
input together with an error info whose message is the exception string and
whose position fields are all absent. -/
theorem format_catches_exceptions (v : List Char → LoadResult) (raw msg : List Char) :
    (v (strip_json_comments raw) = LoadResult.valueError msg →
      format_json_with_comments v raw = (raw, some (value_error_info msg))) ∧
    (v (strip_json_comments raw) = LoadResult.otherError msg →
      format_json_with_comments v raw =
        (raw, some { message := msg, lineno := none, colno := none, pos := none })) := by
  constructor <;> intro h <;> simp [format_json_with_comments, h]

/-- Witness for C10: both exception branches at concrete validators, with
the realistic `json.loads` message extracting line 1, column 6, char 5. -/
theorem format_catches_exceptions_witness :
    format_json_with_comments c10Loads c3In =
      (c3In, some { message := c10Msg, lineno := some 1, colno := some 6,
                    pos := some 5 }) ∧
    format_json_with_comments c10OtherLoads c3In =
      (c3In, some { message := c3Msg, lineno := none, colno := none, pos := none }) := by
  constructor
  · have h := (format_catches_exceptions c10Loads c3In c10Msg).1 rfl
    rw [h]
    decide
  · exact (format_catches_exceptions c10OtherLoads c3In c3Msg).2 rfl

/-- C8: structural characters and comment-start sequences inside a quoted
string trigger no transitions: for any well-formed string body, the
tokenizer keeps the whole quoted span (delimiters included) in one string
token and continues after it, and the stripper copies the whole quoted span
unchanged into its output. -/
theorem string_opacity (d : Char) (body rest : List Char)
    (hq : d = '"' ∨ d = '\'') (hok : scanOk d body = true) :
    tokenize (d :: (body ++ d :: rest)) =
      Token.mk TokKind.string (d :: (body ++ [d])) :: tokenize rest ∧
    strip_json_comments (d :: (body ++ d :: rest)) =
      d :: (body ++ d :: strip_json_comments rest) := by
  have hd : (d == '\\') = false := by rcases hq with rfl | rfl <;> rfl
  have hsp : pyIsSpace d = false := by rcases hq with rfl | rfl <;> rfl
  have hqb : (d == '\'' || d == '"') = true := by rcases hq with rfl | rfl <;> rfl
  have hclose := scanString_closes d hd body false rest hok
  have hnext : nextToken (d :: (body ++ d :: rest)) =
      some (Token.mk TokKind.string (d :: (body ++ [d])), rest) := by
    simp [nextToken, hsp, hqb, hclose]
  constructor
  · show tokenizeF (d :: (body ++ d :: rest)).length (d :: (body ++ d :: rest)) = _
    have hlen : (d :: (body ++ d :: rest)).length = (body.length + rest.length + 1) + 1 := by
      simp only [List.length_cons, List.length_append]
      omega
    rw [hlen, tokenizeF_cons_eq _ _ _ _ hnext,
      tokenizeF_irrel (body.length + rest.length + 1) rest.length rest
        (by omega) (Nat.le_refl _)]
    rfl
  · show stripAux .normal (d :: (body ++ d :: rest)) = _
    rw [stripAux.eq_def]
    simp only [hqb, if_true]
    rw [stripAux_inString_closes d hd body false rest hok]
    rfl

/-- Witness for C8: a double-quoted string whose body holds every structural
character and both comment openers, followed by further input. -/
theorem string_opacity_witness :
    tokenize (c8Delim :: (c8Body ++ c8Delim :: c8Rest)) =
      Token.mk TokKind.string (c8Delim :: (c8Body ++ [c8Delim])) :: tokenize c8Rest ∧
    strip_json_comments (c8Delim :: (c8Body ++ c8Delim :: c8Rest)) =
      c8Delim :: (c8Body ++ c8Delim :: strip_json_comments c8Rest) :=
  string_opacity c8Delim c8Body c8Rest (Or.inl rfl) (by decide)

/-- C7 as stated is false: the input `1` followed by a bare carriage return
is valid JSON and ends with a line terminator in the claim's sense, but the
formatter tests only `endswith("\n")`, so the output ends with no line break
at all. -/
theorem trailing_newline_cr_counterexample :
    acceptAll (strip_json_comments c7CrIn) = LoadResult.ok ∧
    endsWithLineBreak c7CrIn = true ∧
    endsWithLineBreak (format_json_with_comments acceptAll c7CrIn).1 = false := by
  decide

/-- C7 (amended): for every input accepted by the validator, the trailing
whitespace of the formatted text is exactly one newline when the input ends
with the newline character `\n`, and empty otherwise — so the output ends
with exactly one line break iff the input ends with `\n` (a bare carriage
return does not count), and never ends with any other trailing whitespace. -/
theorem format_trailing_newline (v : List Char → LoadResult) (raw : List Char)
    (h : v (strip_json_comments raw) = LoadResult.ok) :
    trailing_ws (format_json_with_comments v raw).1 =
      (if raw.getLast? == some '\n' then ['\n'] else []) := by
  simp only [format_json_with_comments, h]
  simp only [pretty_print_tokens_with_comments]
  cases hb : (raw.getLast? == some '\n') with
  | false => simp [hb, trailing_ws_pyRstrip]
  | true => simp [hb, trailing_ws_pyRstrip_nl]

/-- Witness for C7 at the concrete input `1` followed by a newline. -/
theorem format_trailing_newline_witness :
    trailing_ws (format_json_with_comments acceptAll c7NlIn).1 = ['\n'] := by
  have h := format_trailing_newline acceptAll c7NlIn rfl
  exact h.trans (by decide)

/-- C9 as stated is false for the offset field: the message `char 7`
contains the claim's pattern `char <K>`, but the source regex demands the
parenthesized form `(char <K>)`, so no offset is extracted. -/
theorem char_pattern_counterexample :
    (∃ i, (charPatternAt (c9Msg.drop i)).isSome = true) ∧
    (value_error_info c9Msg).pos = none :=
  ⟨⟨0, by decide⟩, by decide⟩

/-- C9 (amended): line and column are extracted exactly when the message
contains `line <N> column <M>` (whitespace-separated, case-insensitive), the
offset is extracted exactly when the message contains the parenthesized
pattern `(char <K>)`, every field whose pattern is not found stays absent,
and the message is carried over verbatim. -/
theorem value_error_info_extraction (msg : List Char) :
    ((value_error_info msg).lineno.isSome = true ↔
      ∃ i, (lineColAt (msg.drop i)).isSome = true) ∧
    ((value_error_info msg).colno.isSome = true ↔
      ∃ i, (lineColAt (msg.drop i)).isSome = true) ∧
    ((value_error_info msg).pos.isSome = true ↔
      ∃ i, (charPosAt (msg.drop i)).isSome = true) ∧
    (value_error_info msg).message = msg := by
  have key1 : (re_search_line_col msg).isSome = true ↔
      ∃ i, (lineColAt (msg.drop i)).isSome = true :=
    searchFirst_isSome_iff lineColAt rfl msg
  have key2 : (re_search_char_pos msg).isSome = true ↔
      ∃ i, (charPosAt (msg.drop i)).isSome = true :=
    searchFirst_isSome_iff charPosAt rfl msg
  rcases hs : re_search_line_col msg with _ | p
  · rw [hs] at key1
    simp only [Option.isSome_none, Bool.false_eq_true, false_iff] at key1
    refine ⟨?_, ?_, ?_, ?_⟩ <;> simp [value_error_info, hs, key1, key2]
  · rw [hs] at key1
    simp only [Option.isSome_some, true_iff] at key1
    refine ⟨?_, ?_, ?_, ?_⟩ <;> simp [value_error_info, hs, key1, key2]

end JsonWithComments
